import Mathlib

/-!
Verification of the test-run state machine of `autocertkit/models.py`.

The Python classes (`Element`, `DeviceTestClassMethod`, `DeviceTestClass`,
`Device`, `AutoCertKitRun`) are embedded as Lean structures; their methods
become pure functions.  Python dictionaries become association lists with
first-match lookup and in-place update (dict insertion-order semantics);
Python `in` on strings becomes an explicit substring check; minidom
documents become an explicit tree; file writes become functions from a
document to a document; exceptions become `Except String`.

The constants `REQ_CAP`, `get_value`, `get_cpu_id` and `log` come from the
`utils` module which is not part of the sources; where their behaviour
matters it is modelled from the spec (see the doc comments mentioning
`Modelled from the spec:`).
-/

namespace ACK

/-- Python dict of strings: association list, first-match lookup. -/
abbrev Dict := List (String × String)

/-- `rec[k]` lookup, first match. -/
def dictGet : Dict → String → Option String
  | [], _ => none
  | kv :: rest, k => if kv.1 == k then some kv.2 else dictGet rest k

/-- Lookup with a default (minidom `getAttribute` returns "" when absent). -/
def dictGetD (d : Dict) (k : String) (dflt : String) : String :=
  match dictGet d k with
  | some v => v
  | none => dflt

/-- `k in rec` membership test. -/
def dictHas (d : Dict) (k : String) : Bool :=
  (dictGet d k).isSome

/-- `rec[k] = v`: overwrite in place if the key is present, else append
(Python dict insertion-order update semantics). -/
def dictSet (d : Dict) (k v : String) : Dict :=
  match d with
  | [] => [(k, v)]
  | kv :: rest => if kv.1 == k then (k, v) :: rest else kv :: dictSet rest k v

/-- Boolean-valued dict used by `Device.get_caps`. -/
abbrev BDict := List (String × Bool)

def bdictGet : BDict → String → Option Bool
  | [], _ => none
  | kv :: rest, k => if kv.1 == k then some kv.2 else bdictGet rest k

def bdictHas (d : BDict) (k : String) : Bool :=
  (bdictGet d k).isSome

def bdictSet (d : BDict) (k : String) (v : Bool) : BDict :=
  match d with
  | [] => [(k, v)]
  | kv :: rest => if kv.1 == k then (k, v) :: rest else kv :: bdictSet rest k v

/-- `sub` is a leading segment of `s` (character lists). -/
def subAt : List Char → List Char → Bool
  | [], _ => true
  | _ :: _, [] => false
  | a :: as, b :: bs => a == b && subAt as bs

/-- `sub` occurs somewhere in `s` (character lists). -/
def containsSub (sub : List Char) : List Char → Bool
  | [] => subAt sub []
  | c :: t => subAt sub (c :: t) || containsSub sub t

/-- Python `sub in s` on strings: substring containment. -/
def strContains (s sub : String) : Bool :=
  containsSub sub.data s.data

/-- Python truthiness of an optional string (None and "" are falsy). -/
def strTruthy : Option String → Bool
  | none => false
  | some s => !s.isEmpty

/-- `models.Element`: a named node with an optional text value and an
attribute record. -/
structure Element where
  name : String
  val : Option String := none
  attr : Dict := []
deriving DecidableEq, Repr

/-- `Element.__init__(name, value, attributes)`: the value and the
attribute record are only installed when truthy. -/
def Element.make (name : String) (value : Option String) (attributes : Option Dict) : Element :=
  { name := name
    val := match value with
           | some v => if v.isEmpty then none else some v
           | none => none
    attr := match attributes with
            | some a => a
            | none => [] }

/-- `Element.create_xml_node`: the serialized node keeps the attributes and
carries a text child only when the value is truthy. -/
def Element.serialize (e : Element) : Element :=
  { e with val := match e.val with
                  | some v => if v.isEmpty then none else some v
                  | none => none }

/-- A value of one entry of an update record: Python passes either a scalar
or a dict to `DeviceTestClassMethod.update_elem`. -/
inductive RecVal where
  | str (s : String)
  | dict (d : Dict)
deriving DecidableEq, Repr

/-- An update record (`result` dict in the Python code): iteration order is
insertion order. -/
abbrev URec := List (String × RecVal)

/-- `models.DeviceTestClassMethod`. -/
structure TM where
  attr : Dict
  name : String
  elems : List Element
deriving DecidableEq, Repr

/-- Constructor: the full name is `parent.name` ++ "." ++ the node's `name`
attribute. -/
def TM.make (parentName : String) (attr : Dict) (elems : List Element) : TM :=
  { attr := attr
    name := parentName ++ "." ++ dictGetD attr "name" ""
    elems := elems }

/-- `_match_key`: compare the value of the first element with the given name
against the given text; absent element means false. -/
def findElem : List Element → String → Option Element
  | [], _ => none
  | e :: es, k => if e.name == k then some e else findElem es k

def TM.matchKey (m : TM) (key text : String) : Bool :=
  match findElem m.elems key with
  | some e => e.val == some text
  | none => false

/-- `_get_key`: the value of the first element with the given name. -/
def TM.getKey (m : TM) (key : String) : Option String :=
  match findElem m.elems key with
  | some e => e.val
  | none => none

def TM.has_passed (m : TM) : Bool := m.matchKey "result" "pass"
def TM.has_failed (m : TM) : Bool := m.matchKey "result" "fail"
def TM.has_skipped (m : TM) : Bool := m.matchKey "result" "skip"
def TM.is_waiting (m : TM) : Bool := m.matchKey "status" "init"
def TM.is_running (m : TM) : Bool := m.matchKey "status" "running"
def TM.is_done (m : TM) : Bool := m.matchKey "status" "done"

/-- One step of `update_elem` on the element list: set the value (or, for a
dict, the attribute record) of the first element with the given name, else
append a freshly created element at the end. -/
def updElems (k : String) (v : RecVal) : List Element → List Element
  | [] => [match v with
           | RecVal.dict d => Element.make k none (some d)
           | RecVal.str s => Element.make k (some s) none]
  | e :: es =>
    if e.name == k then
      (match v with
       | RecVal.dict d => { e with attr := d }
       | RecVal.str s => { e with val := some s }) :: es
    else
      e :: updElems k v es

/-- `DeviceTestClassMethod.update_elem`. -/
def TM.update_elem (m : TM) (k : String) (v : RecVal) : TM :=
  { m with elems := updElems k v m.elems }

/-- `DeviceTestClassMethod.update`: apply every entry of the record in
order. -/
def TM.update (m : TM) (rec : URec) : TM :=
  rec.foldl (fun m kv => m.update_elem kv.1 kv.2) m

/-- Codepoint-lexicographic order on character lists (Python string `<`
for the identifiers used here). -/
def charListLe : List Char → List Char → Bool
  | [], _ => true
  | _ :: _, [] => false
  | a :: as, b :: bs =>
    if a.toNat < b.toNat then true
    else if b.toNat < a.toNat then false
    else charListLe as bs

/-- Lexicographic order on names, used by `sorted(..., key=get_name)`. -/
def nameLe (a b : String) : Bool := charListLe a.data b.data

/-- Stable insertion into a name-sorted list of methods. -/
def insertByName (m : TM) : List TM → List TM
  | [] => [m]
  | x :: xs => if nameLe m.name x.name then m :: x :: xs else x :: insertByName m xs

/-- Stable sort of methods by ascending name (`sorted` with the name key). -/
def sortByName : List TM → List TM
  | [] => []
  | m :: ms => insertByName m (sortByName ms)

/-- Left-trim and right-trim spaces from a character list. -/
def trimSp (cs : List Char) : List Char :=
  ((cs.dropWhile (fun c => c == ' ')).reverse.dropWhile (fun c => c == ' ')).reverse

/-- Split a character list at every comma. -/
def splitOnComma : List Char → List (List Char)
  | [] => [[]]
  | c :: cs =>
    if c == ',' then [] :: splitOnComma cs
    else
      match splitOnComma cs with
      | g :: gs => (c :: g) :: gs
      | [] => [[c]]

/-- Strip one matching pair of quotes around a trimmed item. -/
def stripQuotes (cs : List Char) : List Char :=
  let t := trimSp cs
  match t with
  | c :: rest =>
    if (c == '\'' || c == '"') && rest.getLast? == some c then rest.dropLast
    else t
  | [] => []

/-- `eval` applied to the textual list literal stored in the `caps`
attribute (`DeviceTestClass.get_caps`): a bracketed, comma-separated list
of quoted capability identifiers. -/
def parseCapsList (s : String) : List String :=
  let t := trimSp s.data
  match t with
  | '[' :: rest =>
    if rest.getLast? == some ']' then
      let inner := rest.dropLast
      if trimSp inner = [] then []
      else (splitOnComma inner).map (fun i => String.mk (stripQuotes i))
    else []
  | _ => []

/-- `models.DeviceTestClass`. -/
structure TC where
  config : Dict
  name : String
  test_methods : List TM
deriving DecidableEq, Repr

/-- Constructor: the class name is the `name` attribute of the node. -/
def TC.make (config : Dict) (methods : List TM) : TC :=
  { config := config
    name := dictGetD config "name" ""
    test_methods := methods }

/-- `DeviceTestClass.get_caps`: parse the declared capability list. -/
def TC.get_caps (tc : TC) : List String :=
  parseCapsList (dictGetD tc.config "caps" "")

/-- `DeviceTestClass.is_required`, with the `REQ_CAP` sentinel passed
explicitly.  Modelled from the spec: `REQ_CAP` lives in the missing
`utils` module; the spec only says it is "a distinguished capability
identifier whose presence marks a test class as mandatory". -/
def TC.is_required (reqCap : String) (tc : TC) : Bool :=
  tc.get_caps.contains reqCap

/-- `DeviceTestClass.has_passed`: false iff some method has not passed
while the class is required. -/
def TC.has_passed (reqCap : String) (tc : TC) : Bool :=
  !(tc.test_methods.any (fun m => !m.has_passed && tc.is_required reqCap))

def TC.get_methods (tc : TC) : List TM := tc.test_methods

/-- `DeviceTestClass.get_methods_to_run`: waiting methods sorted by name
ascending. -/
def TC.get_methods_to_run (tc : TC) : List TM :=
  sortByName (tc.test_methods.filter (fun m => m.is_waiting))

/-- `DeviceTestClass.get_method_by_name`: the first method whose full name
contains the given name as a substring. -/
def firstContaining (n : String) : List TM → Option TM
  | [] => none
  | m :: ms => if strContains m.name n then some m else firstContaining n ms

def TC.get_method_by_name (tc : TC) (n : String) : Option TM :=
  firstContaining n tc.test_methods

/-- `DeviceTestClass.get_next_test_method`: with a truthy name, the first
ready method whose name contains it (raising when none does); otherwise
the head of the ready queue, or nothing when it is empty. -/
def TC.get_next_test_method (tc : TC) (test_name : Option String) : Except String (Option TM) :=
  let tms := tc.get_methods_to_run
  if strTruthy test_name then
    match firstContaining (match test_name with | some s => s | none => "") tms with
    | some m => Except.ok (some m)
    | none => Except.error "MethodNotFound"
  else
    match tms with
    | [] => Except.ok none
    | m :: _ => Except.ok (some m)

/-- `DeviceTestClass.is_finished`: no method is waiting. -/
def TC.is_finished (tc : TC) : Bool :=
  !(tc.test_methods.any (fun m => m.is_waiting))

/-- `DeviceTestClass.group_test_method_by_status`: the (running, waiting,
failed) partitions, each a filter in stored order. -/
def TC.group_test_method_by_status (tc : TC) : List TM × List TM × List TM :=
  (tc.test_methods.filter (fun m => m.is_running),
   tc.test_methods.filter (fun m => m.is_waiting),
   tc.test_methods.filter (fun m => m.has_failed))

/-- The `test_name` entry of an update record, when it is a scalar. -/
def findRecVal : URec → String → Option RecVal
  | [], _ => none
  | kv :: rest, k => if kv.1 == k then some kv.2 else findRecVal rest k

def recTestName (r : URec) : Option String :=
  match findRecVal r "test_name" with
  | some (RecVal.str s) => some s
  | _ => none

/-- Apply one result record: look the method up by substring containment
and update it in place; raise when no method matches (the missing or
non-scalar `test_name` key is folded into the same error). -/
def updMethods (r : URec) (n : String) : List TM → Option (List TM)
  | [] => none
  | m :: ms =>
    if strContains m.name n then some (m.update r :: ms)
    else
      match updMethods r n ms with
      | some ms' => some (m :: ms')
      | none => none

/-- `DeviceTestClass.update`: apply a batch of result records in order;
raise when a record names a method not owned by this class. -/
def TC.update (tc : TC) (results : List URec) : Except String TC :=
  match results with
  | [] => Except.ok tc
  | r :: rs =>
    match recTestName r with
    | none => Except.error "KeyError"
    | some n =>
      match updMethods r n tc.test_methods with
      | none => Except.error "UnknownMethod"
      | some ms => TC.update { tc with test_methods := ms } rs

/-- `models.Device`. -/
structure Device where
  config : Dict
  tag : String
  udid : String
  test_classes : List TC
deriving DecidableEq, Repr

/-- Constructor: tag and udid are read from the node attributes. -/
def Device.make (config : Dict) (classes : List TC) : Device :=
  { config := config
    tag := dictGetD config "tag" ""
    udid := dictGetD config "udid" ""
    test_classes := classes }

/-- Python `==` between a bool and an optional bool (None compares unequal
to every bool). -/
def eqOptBool (b : Bool) (f : Option Bool) : Bool :=
  match f with
  | none => false
  | some x => b == x

/-- `Device.get_test_methods(filter_required)`: flatten methods across
classes, skipping a class when its `is_required()` equals the filter. -/
def Device.get_test_methods (reqCap : String) (d : Device) (filter_required : Option Bool) : List TM :=
  (d.test_classes.filter (fun tc => !(eqOptBool (tc.is_required reqCap) filter_required))).flatMap
    (fun tc => tc.test_methods)

/-- `Device.get_caps`: fold over classes in stored order; a passed class
records each declared capability as supported only when the capability is
not yet recorded, a failed class records each declared capability as
unsupported unconditionally. -/
def Device.get_caps (reqCap : String) (d : Device) : BDict :=
  d.test_classes.foldl
    (fun caps tc =>
      let tcaps := tc.get_caps
      if tc.has_passed reqCap then
        tcaps.foldl (fun caps cap => if bdictHas caps cap then caps else bdictSet caps cap true) caps
      else
        tcaps.foldl (fun caps cap => bdictSet caps cap false) caps)
    []

/-- `Device.group_test_classes_by_status`: classes bucketed by non-empty
(running, waiting, failed) method partitions. -/
def Device.group_test_classes_by_status (d : Device) : List TC × List TC × List TC :=
  (d.test_classes.filter (fun tc => !(tc.group_test_method_by_status).1.isEmpty),
   d.test_classes.filter (fun tc => !(tc.group_test_method_by_status).2.1.isEmpty),
   d.test_classes.filter (fun tc => !(tc.group_test_method_by_status).2.2.isEmpty))

/-- `Device.has_passed`: false iff some required class has not passed. -/
def Device.has_passed (reqCap : String) (d : Device) : Bool :=
  !(d.test_classes.any (fun tc => tc.is_required reqCap && !tc.has_passed reqCap))

/-- The five counters returned by `get_status`. -/
structure StatusCounts where
  passed : Nat
  failed : Nat
  skipped : Nat
  waiting : Nat
  running : Nat
deriving DecidableEq, Repr

/-- `Device.get_status`: independent counts over `get_test_methods()` (no
filter, hence all methods). -/
def Device.get_status (reqCap : String) (d : Device) : StatusCounts :=
  let tms := d.get_test_methods reqCap none
  { passed := tms.countP (fun m => m.has_passed)
    failed := tms.countP (fun m => m.has_failed)
    skipped := tms.countP (fun m => m.has_skipped)
    waiting := tms.countP (fun m => m.is_waiting)
    running := tms.countP (fun m => m.is_running) }

/-- One method node of the persisted document: attributes plus serialized
child elements. -/
structure MethodNode where
  attr : Dict
  children : List Element
deriving DecidableEq, Repr

/-- One `test_class` node of the persisted document. -/
structure ClassNode where
  attr : Dict
  methods : List MethodNode
deriving DecidableEq, Repr

/-- One `device` node of the persisted document; `classes` are the
`test_class` descendants. -/
structure DeviceNode where
  attr : Dict
  classes : List ClassNode
deriving DecidableEq, Repr

/-- The persisted XML document: the (at most one) `global_config` node's
attributes and the `device` nodes in document order. -/
structure Document where
  global_attr : Option Dict
  devices : List DeviceNode
deriving DecidableEq, Repr

/-- `DeviceTestClassMethod.create_xml_node`: a `test_method` node carrying
the method's attributes and its serialized elements as children. -/
def TM.serialize (m : TM) : MethodNode :=
  { attr := m.attr
    children := m.elems.map Element.serialize }

/-- Rewrite the matching class nodes of one device node: `name`-matching
nodes get their children replaced by the freshly serialized methods
(`remove_child_nodes` followed by `appendChild` per method). -/
def replaceClassMethods (tc : TC) (dev : DeviceNode) : DeviceNode :=
  let upd := fun (c : ClassNode) =>
    if dictGetD c.attr "name" "" == tc.name
    then { c with methods := tc.test_methods.map TM.serialize }
    else c
  { dev with classes := dev.classes.map upd }

/-- Apply `f` to the last element satisfying `p`, leaving the rest alone. -/
def updateLast (p : α → Bool) (f : α → α) : List α → List α
  | [] => []
  | a :: as =>
    if as.any p then a :: updateLast p f as
    else if p a then f a :: as
    else a :: as

/-- `DeviceTestClass.save`: locate the class node through the last
`device` node whose `udid` attribute equals the owning device's udid
(`tc_nodes` keeps the classes of the last match of the loop), then rewrite
exactly that class's subtree.  The unbound-variable failure when no device
matches becomes `NameError`; the empty-class-list failure is the spec's
`DeviceOrClassNotFound`; the wrong-multiplicity failure is the spec's
`AmbiguousClass`. -/
def TC.save (tc : TC) (udid : String) (doc : Document) : Except String Document :=
  match (doc.devices.filter (fun d => dictGetD d.attr "udid" "" == udid)).getLast? with
  | none => Except.error "NameError"
  | some dev =>
    if dev.classes.isEmpty then Except.error "DeviceOrClassNotFound"
    else
      let node_list := dev.classes.filter (fun c => dictGetD c.attr "name" "" == tc.name)
      if node_list.length != 1 then Except.error "AmbiguousClass"
      else Except.ok { doc with
        devices := updateLast (fun d => dictGetD d.attr "udid" "" == udid)
                              (replaceClassMethods tc) doc.devices }

/-- Decimal digit value of a character, if any. -/
def decDigit (c : Char) : Option Nat :=
  if 48 ≤ c.toNat && c.toNat ≤ 57 then some (c.toNat - 48) else none

/-- Accumulating decimal parse of a digit string. -/
def decValueAux : List Char → Nat → Option Nat
  | [], acc => some acc
  | c :: rest, acc =>
    match decDigit c with
    | some d => decValueAux rest (acc * 10 + d)
    | none => none

/-- Python `int` applied to a decimal digit string (the only shape the
`rerun` attribute takes). -/
def strToNat (s : String) : Option Nat :=
  match s.data with
  | [] => none
  | cs => decValueAux cs 0

/-- The character of one decimal digit. -/
def natDigitChar (d : Nat) : Char := Char.ofNat (48 + d)

/-- Fuelled most-significant-first decimal rendering (the fuel `n + 1`
always suffices). -/
def natToStrFuel : Nat → Nat → List Char
  | 0, _ => []
  | fuel + 1, n =>
    if n < 10 then [natDigitChar n]
    else natToStrFuel fuel (n / 10) ++ [natDigitChar (n % 10)]

/-- Python `str` applied to a natural number. -/
def natToStr (n : Nat) : String := String.mk (natToStrFuel (n + 1) n)

/-- Decidable equality of `Except` results. -/
def exceptDecEq {e a : Type} [DecidableEq e] [DecidableEq a] :
    DecidableEq (Except e a)
  | Except.ok x, Except.ok y =>
    if h : x = y then isTrue (by rw [h])
    else isFalse (by intro he; cases he; exact h rfl)
  | Except.ok _, Except.error _ => isFalse (by intro he; cases he)
  | Except.error _, Except.ok _ => isFalse (by intro he; cases he)
  | Except.error x, Except.error y =>
    if h : x = y then isTrue (by rw [h])
    else isFalse (by intro he; cases he; exact h rfl)

instance {e a : Type} [DecidableEq e] [DecidableEq a] : DecidableEq (Except e a) :=
  exceptDecEq

/-- `models.AutoCertKitRun`: the global configuration and the devices. -/
structure Run where
  config : Dict
  devices : List Device
deriving DecidableEq, Repr

/-- `AutoCertKitRun.get_rerun_times`.  Modelled from the spec: the helper
`get_value` and the integer conversion live in the missing `utils` module;
the spec describes the budget as "a non-negative integer or
absent/unbounded", where an absent budget "reruns indefinitely and is
never decremented".  `none` is the absent/unbounded budget. -/
def Run.get_rerun_times (run : Run) : Option Nat :=
  match dictGet run.config "rerun" with
  | none => none
  | some s => strToNat s

/-- Python truthiness of the budget: the absent/unbounded budget is truthy
(it keeps the rerun loop alive), a numeric budget is truthy iff nonzero. -/
def budgetTruthy : Option Nat → Bool
  | none => true
  | some n => n != 0

/-- `AutoCertKitRun.get_status`: sum the device counters over devices in
stored order. -/
def Run.get_status (reqCap : String) (run : Run) : StatusCounts :=
  run.devices.foldl
    (fun acc d =>
      let s := d.get_status reqCap
      { passed := acc.passed + s.passed
        failed := acc.failed + s.failed
        skipped := acc.skipped + s.skipped
        waiting := acc.waiting + s.waiting
        running := acc.running + s.running })
    { passed := 0, failed := 0, skipped := 0, waiting := 0, running := 0 }

/-- `AutoCertKitRun.is_finished`: a truthy budget keeps the run alive;
otherwise the run is finished when nothing is waiting or running. -/
def Run.is_finished (reqCap : String) (run : Run) : Bool :=
  if budgetTruthy run.get_rerun_times then false
  else (run.get_status reqCap).waiting + (run.get_status reqCap).running == 0

/-- `AutoCertKitRun.update_rerun_times`: write the new budget into the
in-memory configuration when the key exists, and into the document's
`global_config` node when that node exists and carries the attribute. -/
def Run.update_rerun_times (run : Run) (doc : Document) (rerun_times : Nat) : Run × Document :=
  let run' := if dictHas run.config "rerun"
              then { run with config := dictSet run.config "rerun" (natToStr rerun_times) }
              else run
  let doc' := match doc.global_attr with
              | none => doc
              | some g =>
                if dictHas g "rerun"
                then { doc with global_attr := some (dictSet g "rerun" (natToStr rerun_times)) }
                else doc
  (run', doc')

/-- The records the rerun sweep builds for one failed class: one per failed
method, in stored order (`status` list in `get_next_test`). -/
def TC.resetRecords (tc : TC) : List URec :=
  (tc.group_test_method_by_status).2.2.map
    (fun m => [("test_name", RecVal.str m.name),
               ("status", RecVal.str "init"),
               ("result", RecVal.str "NULL")])

/-- `failed_class.update(status)` of the rerun sweep.  The error branch is
unreachable: every record carries the full name of an owned method, which
contains itself, so the substring lookup always finds a method. -/
def TC.rerunReset (tc : TC) : TC :=
  match tc.update tc.resetRecords with
  | Except.ok tc' => tc'
  | Except.error _ => tc

/-- In-memory effect of the rerun sweep on the whole tree: every class
holding a failed method (exactly the classes collected in
`all_failed_classes`, which alias the tree) is reset in place. -/
def rerunResetRun (run : Run) : Run :=
  { run with devices :=
      run.devices.map (fun d =>
        { d with test_classes :=
            d.test_classes.map (fun tc =>
              if (tc.group_test_method_by_status).2.2.isEmpty then tc else tc.rerunReset) }) }

/-- The `failed_class.save(self.xml_file)` calls of the rerun sweep, in
collected order; each save reads the previous save's output.  On an error
the exception propagates (the partially mutated in-memory state is not
observable through the `Except` result). -/
def saveAll : List (String × TC) → Document → Except String Document
  | [], doc => Except.ok doc
  | (udid, tc) :: rest, doc =>
    match tc.save udid doc with
    | Except.ok doc' => saveAll rest doc'
    | Except.error e => Except.error e

/-- The resume-priority scan of `get_next_test`: the first device with a
running class returns the last running class and that class's last running
method (`list.pop()` twice).  The inner `none` is unreachable because the
class was selected for having a running method. -/
def runningPick : List Device → Option (TC × TM)
  | [] => none
  | d :: ds =>
    match (d.group_test_classes_by_status).1.getLast? with
    | some tc =>
      match (tc.group_test_method_by_status).1.getLast? with
      | some tm => some (tc, tm)
      | none => none
    | none => runningPick ds

/-- The waiting classes collected across devices in device-then-class
stored order (`all_waiting_classes`). -/
def allWaitingClasses (run : Run) : List TC :=
  run.devices.flatMap (fun d => (d.group_test_classes_by_status).2.1)

/-- The failed classes collected across devices in device-then-class
stored order, paired with the owning device's udid
(`all_failed_classes`). -/
def allFailedClasses (run : Run) : List (String × TC) :=
  run.devices.flatMap (fun d => ((d.group_test_classes_by_status).2.2).map (fun tc => (d.udid, tc)))

/-- The budget-decrement step of the rerun sweep: a positive finite budget
is decremented and written through `update_rerun_times`; an
absent/unbounded budget is left alone (`if rerun_times > 0`). -/
def budgetStep (run : Run) (doc : Document) : Run × Document :=
  match run.get_rerun_times with
  | some n => if 0 < n then run.update_rerun_times doc (n - 1) else (run, doc)
  | none => (run, doc)

/-- `AutoCertKitRun.get_next_test`: resume priority, then ready priority
(last collected waiting class, its last stored waiting method), then the
rerun sweep (decrement a positive budget, reset and persist every failed
class, return the last collected failed class with its last now-waiting
method), else nothing.  Empty-list pops become `IndexError`. -/
def Run.get_next_test (run : Run) (doc : Document) : Except String (Option (TC × TM) × Run × Document) :=
  match runningPick run.devices with
  | some p => Except.ok (some p, run, doc)
  | none =>
    match (allWaitingClasses run).getLast? with
    | some tc =>
      match (tc.group_test_method_by_status).2.1.getLast? with
      | some tm => Except.ok (some (tc, tm), run, doc)
      | none => Except.error "IndexError"
    | none =>
      let all_failed := allFailedClasses run
      let rt := run.get_rerun_times
      if budgetTruthy rt && !all_failed.isEmpty then
        let step := budgetStep run doc
        let run₂ := rerunResetRun step.1
        match saveAll (all_failed.map (fun p => (p.1, p.2.rerunReset))) step.2 with
        | Except.error e => Except.error e
        | Except.ok doc₂ =>
          match all_failed.getLast? with
          | some last =>
            match ((last.2.rerunReset).group_test_method_by_status).2.1.getLast? with
            | some tm => Except.ok (some (last.2.rerunReset, tm), run₂, doc₂)
            | none => Except.error "IndexError"
          | none => Except.error "IndexError"
      else
        Except.ok (none, run, doc)

/-! ## Shared lemma material -/

/-- Methods of a run, flattened in device-then-class stored order. -/
def allMethods (run : Run) : List TM :=
  run.devices.flatMap (fun d => d.test_classes.flatMap (fun tc => tc.test_methods))

/-- Extraction of a successful class update (used to build scenarios). -/
def okTC (x : Except String TC) (dflt : TC) : TC :=
  match x with
  | Except.ok tc => tc
  | Except.error _ => dflt

/-! ## C8 scenario: one NA device, one required class with a passed and a
failed method -/

def c8link : TM :=
  TM.make "net" [("name", "link")]
    [Element.make "status" (some "init") none, Element.make "result" (some "NULL") none]

def c8speed : TM :=
  TM.make "net" [("name", "speed")]
    [Element.make "status" (some "init") none, Element.make "result" (some "NULL") none]

def c8net : TC :=
  TC.make [("name", "net"), ("caps", "['network']"), ("order", "0")] [c8link, c8speed]

/-- The two reported outcomes: `net.link` pass/done, `net.speed` fail/done. -/
def c8reports : List URec :=
  [[("test_name", RecVal.str "net.link"), ("result", RecVal.str "pass"), ("status", RecVal.str "done")],
   [("test_name", RecVal.str "net.speed"), ("result", RecVal.str "fail"), ("status", RecVal.str "done")]]

def c8netAfter : TC := okTC (c8net.update c8reports) c8net

def c8devAfter : Device := Device.make [("udid", "1"), ("tag", "NA")] [c8netAfter]

def c8runAfter : Run := { config := [], devices := [c8devAfter] }

/-- C8: after reporting `net.link` as pass/done and `net.speed` as
fail/done on the one-device one-class run, the device has not passed, its
capability map is exactly network ↦ unsupported, and the run's status
counts are passed 1, failed 1, skipped 0, waiting 0, running 0.  The
`REQ_CAP` sentinel is taken to be "network" so that the class is required,
as the scenario stipulates. -/
theorem C8_scenario :
    (c8net.update c8reports).isOk = true ∧
    c8devAfter.has_passed "network" = false ∧
    c8devAfter.get_caps "network" = [("network", false)] ∧
    c8runAfter.get_status "network" =
      { passed := 1, failed := 1, skipped := 0, waiting := 0, running := 0 } := by
  decide

/-! ## C5: the `filter_required` filter of `Device.get_test_methods` -/

def c5m : TM :=
  TM.make "req" [("name", "a")]
    [Element.make "status" (some "init") none, Element.make "result" (some "NULL") none]

def c5tc : TC := TC.make [("name", "req"), ("caps", "['REQ']"), ("order", "0")] [c5m]

def c5dev : Device := Device.make [("udid", "1"), ("tag", "NA")] [c5tc]

/-- C5 counterexample: a required class and the filter value `true` match,
yet `get_test_methods(True)` drops the class (it returns no methods even
though the device's only class matches the filter and owns a method), so
matching classes are excluded, not included. -/
theorem C5_counterexample :
    c5dev.test_classes = [c5tc] ∧
    c5tc.is_required "REQ" = true ∧
    c5tc.test_methods ≠ [] ∧
    Device.get_test_methods "REQ" c5dev (some true) = [] := by
  decide

/-- C5 amended: for every boolean filter, `get_test_methods` flattens, in
stored order, the methods of exactly those classes whose `is_required()`
does NOT equal the requested filter; classes matching the filter are the
ones excluded. -/
theorem C5_amended (reqCap : String) (d : Device) (b : Bool) :
    Device.get_test_methods reqCap d (some b) =
      (d.test_classes.filter (fun tc => tc.is_required reqCap != b)).flatMap
        (fun tc => tc.test_methods) := by
  unfold Device.get_test_methods
  rfl

/-! ## C4: capability rollup -/

theorem bdictGet_set (d : BDict) (k : String) (v : Bool) (k' : String) :
    bdictGet (bdictSet d k v) k' = if k' = k then some v else bdictGet d k' := by
  induction d with
  | nil =>
    by_cases h : k' = k
    · simp [bdictSet, bdictGet, h]
    · simp [bdictSet, bdictGet, h, Ne.symm h]
  | cons kv rest ih =>
    by_cases hk : kv.1 = k
    · by_cases h : k' = k
      · simp [bdictSet, bdictGet, hk, h]
      · simp [bdictSet, bdictGet, hk, h, Ne.symm h]
    · by_cases h : kv.1 = k'
      · have hne : ¬ k' = k := fun hkk => hk (hkk ▸ h)
        simp [bdictSet, bdictGet, hk, h, hne]
      · simp [bdictSet, bdictGet, hk, h, ih]

/-- The failed-class branch of the capability fold marks every declared
capability as unsupported, unconditionally, and leaves the rest alone. -/
theorem foldFalse_get (tcaps : List String) (caps : BDict) (x : String) :
    bdictGet (tcaps.foldl (fun c cap => bdictSet c cap false) caps) x =
      if x ∈ tcaps then some false else bdictGet caps x := by
  induction tcaps generalizing caps with
  | nil => simp
  | cons c rest ih =>
    rw [List.foldl_cons, ih]
    by_cases hx : x ∈ rest
    · simp [hx]
    · by_cases hc : x = c
      · subst hc
        simp [hx, bdictGet_set]
      · simp [hx, hc, bdictGet_set]

/-- The passed-class branch of the capability fold never overwrites an
already-recorded capability. -/
theorem foldTrue_preserve (tcaps : List String) (caps : BDict) (x : String) (v : Bool)
    (h : bdictGet caps x = some v) :
    bdictGet
      (tcaps.foldl (fun c cap => if bdictHas c cap then c else bdictSet c cap true) caps) x =
      some v := by
  induction tcaps generalizing caps with
  | nil => simpa using h
  | cons c rest ih =>
    rw [List.foldl_cons]
    apply ih
    by_cases hc : bdictHas caps c
    · simpa [hc] using h
    · by_cases hx : x = c
      · exfalso
        rw [hx] at h
        simp [bdictHas, h] at hc
      · simpa [hc, bdictGet_set, hx] using h

/-- C4: for two classes that declare the same capability, one passed and
one failed, the device-level rollup maps that capability to unsupported
under both relative load orders — the unconditional overwrite on failure
beats the record-only-if-absent rule on success either way. -/
theorem C4_rollup (reqCap x : String) (cfg : Dict) (A B : TC)
    (hA : A.has_passed reqCap = true) (hB : B.has_passed reqCap = false)
    (hxA : x ∈ A.get_caps) (hxB : x ∈ B.get_caps) :
    bdictGet ((Device.make cfg [A, B]).get_caps reqCap) x = some false ∧
    bdictGet ((Device.make cfg [B, A]).get_caps reqCap) x = some false := by
  constructor
  · show bdictGet ([A, B].foldl _ []) x = some false
    simp only [List.foldl_cons, List.foldl_nil, hA, hB]
    simp [foldFalse_get, hxB]
  · show bdictGet ([B, A].foldl _ []) x = some false
    simp only [List.foldl_cons, List.foldl_nil, hA, hB]
    exact foldTrue_preserve _ _ _ _ (by simp [foldFalse_get, hxB])

def c4A : TC := TC.make [("name", "a"), ("caps", "['x']"), ("order", "0")] []

def c4Bm : TM :=
  TM.make "b" [("name", "m")]
    [Element.make "status" (some "done") none, Element.make "result" (some "fail") none]

def c4B : TC := TC.make [("name", "b"), ("caps", "['REQ', 'x']"), ("order", "1")] [c4Bm]

/-- Witness for `C4_rollup` at a concrete pair of classes. -/
theorem C4_rollup_witness :
    c4A.has_passed "REQ" = true ∧ c4B.has_passed "REQ" = false ∧
    "x" ∈ c4A.get_caps ∧ "x" ∈ c4B.get_caps ∧
    (bdictGet ((Device.make [] [c4A, c4B]).get_caps "REQ") "x" = some false ∧
     bdictGet ((Device.make [] [c4B, c4A]).get_caps "REQ") "x" = some false) :=
  ⟨by decide, by decide, by decide, by decide,
   C4_rollup "REQ" "x" [] c4A c4B (by decide) (by decide) (by decide) (by decide)⟩

/-! ## C7: `get_next_test_method` -/

/-- When no method's name contains `n`, the substring search fails. -/
theorem firstContaining_eq_none (n : String) (ms : List TM)
    (h : ∀ m ∈ ms, strContains m.name n = false) :
    firstContaining n ms = none := by
  induction ms with
  | nil => rfl
  | cons m rest ih =>
    have hm := h m (List.mem_cons_self m rest)
    simp only [firstContaining, hm]
    exact ih (fun m' hm' => h m' (List.mem_cons_of_mem m hm'))

/-- The substring search returns the method at the first matching
position. -/
theorem firstContaining_eq_get (n : String) (ms : List TM) (i : Nat) (h : i < ms.length)
    (hit : strContains (ms.get ⟨i, h⟩).name n = true)
    (hbefore : ∀ j (hj : j < ms.length), j < i → strContains (ms.get ⟨j, hj⟩).name n = false) :
    firstContaining n ms = some (ms.get ⟨i, h⟩) := by
  induction ms generalizing i with
  | nil => exact absurd h (by simp)
  | cons m rest ih =>
    cases i with
    | zero =>
      simp only [List.get] at hit
      simp [firstContaining, hit]
    | succ i' =>
      have h0 : strContains m.name n = false := by
        simpa using hbefore 0 (by simp) (Nat.succ_pos i')
      have hb : ∀ j (hj : j < rest.length), j < i' →
          strContains (rest.get ⟨j, hj⟩).name n = false := by
        intro j hj hji
        have hstep := hbefore (j + 1) (by simpa using Nat.succ_lt_succ hj)
          (Nat.succ_lt_succ hji)
        simpa using hstep
      have hres := ih i' (Nat.lt_of_succ_lt_succ h) (by simpa using hit) hb
      simpa [firstContaining, h0] using hres

def c7done : TM :=
  TM.make "net" [("name", "a")]
    [Element.make "status" (some "done") none, Element.make "result" (some "pass") none]

def c7tc : TC := TC.make [("name", "net"), ("caps", "['REQ']"), ("order", "0")] [c7done]

/-- C7 counterexample: with a name argument that is the empty string and no
ready method at all, the claim demands `MethodNotFound` (no ready method's
name contains the given name), but the code treats the falsy empty string
as "no name given" and returns nothing. -/
theorem C7_counterexample :
    c7tc.get_methods_to_run = [] ∧
    c7tc.get_next_test_method (some "") = Except.ok none :=
  ⟨by decide, rfl⟩

/-- C7 amended: with no name, or with the (falsy) empty-string name, the
head of the ready queue is returned (nothing when it is empty); with a
nonempty name, the first ready method whose name contains it is returned,
and `MethodNotFound` is raised when no ready method's name contains it. -/
theorem C7_amended :
    (∀ tc : TC, tc.get_next_test_method none = Except.ok tc.get_methods_to_run.head?) ∧
    (∀ tc : TC, tc.get_next_test_method (some "") = tc.get_next_test_method none) ∧
    (∀ (tc : TC) (s : String), s.isEmpty = false →
      (∀ m ∈ tc.get_methods_to_run, strContains m.name s = false) →
      tc.get_next_test_method (some s) = Except.error "MethodNotFound") ∧
    (∀ (tc : TC) (s : String) (i : Nat) (h : i < tc.get_methods_to_run.length),
      s.isEmpty = false →
      strContains (tc.get_methods_to_run.get ⟨i, h⟩).name s = true →
      (∀ j (hj : j < tc.get_methods_to_run.length), j < i →
        strContains (tc.get_methods_to_run.get ⟨j, hj⟩).name s = false) →
      tc.get_next_test_method (some s) =
        Except.ok (some (tc.get_methods_to_run.get ⟨i, h⟩))) := by
  refine ⟨?_, ?_, ?_, ?_⟩
  · intro tc
    have hf : strTruthy none = false := rfl
    cases h : tc.get_methods_to_run <;>
      simp [TC.get_next_test_method, hf, h, List.head?]
  · intro tc
    have hf : strTruthy (some "") = false := rfl
    have hf' : strTruthy none = false := rfl
    simp [TC.get_next_test_method, hf, hf']
  · intro tc s hs hnone
    have ht : strTruthy (some s) = true := by simp [strTruthy, hs]
    simp [TC.get_next_test_method, ht, firstContaining_eq_none s _ hnone]
  · intro tc s i h hs hit hbefore
    have ht : strTruthy (some s) = true := by simp [strTruthy, hs]
    simp [TC.get_next_test_method, ht,
      firstContaining_eq_get s _ i h hit hbefore]

def c7wa : TM :=
  TM.make "net" [("name", "a")]
    [Element.make "status" (some "init") none, Element.make "result" (some "NULL") none]

def c7wb : TM :=
  TM.make "net" [("name", "b")]
    [Element.make "status" (some "init") none, Element.make "result" (some "NULL") none]

def c7w : TC := TC.make [("name", "net"), ("caps", "['REQ']"), ("order", "0")] [c7wb, c7wa]

/-- Witness for `C7_amended` at a concrete class: the ready queue is the
sorted pair [net.a, net.b]; searching for "b" hits position 1, searching
for "z" hits nothing. -/
theorem C7_amended_witness :
    c7w.get_next_test_method (some "z") = Except.error "MethodNotFound" ∧
    c7w.get_next_test_method (some "b") = Except.ok (some c7wb) := by
  constructor
  · exact C7_amended.2.2.1 c7w "z" (by decide) (by decide)
  · have h : (1 : Nat) < c7w.get_methods_to_run.length := by decide
    have hb : ∀ j (hj : j < c7w.get_methods_to_run.length), j < 1 →
        strContains (c7w.get_methods_to_run.get ⟨j, hj⟩).name "b" = false := by
      intro j hj hj1
      have hz : j = 0 := Nat.lt_one_iff.mp hj1
      subst hz
      rfl
    have hres := C7_amended.2.2.2 c7w "b" 1 h rfl rfl hb
    simpa using hres

/-! ## C9: updates never add, delete or rename methods -/

/-- `TestMethod.update` only touches the element list. -/
theorem tmUpdate_name_attr (r : URec) (m : TM) :
    (m.update r).name = m.name ∧ (m.update r).attr = m.attr := by
  induction r generalizing m with
  | nil => exact ⟨rfl, rfl⟩
  | cons kv rest ih =>
    have hstep := ih (m.update_elem kv.1 kv.2)
    simpa [TM.update, TM.update_elem] using hstep

/-- Applying one record leaves the name/attribute skeleton of the method
list unchanged. -/
theorem updMethods_proj (r : URec) (n : String) (ms ms' : List TM)
    (h : updMethods r n ms = some ms') :
    ms'.map (fun m => (m.name, m.attr)) = ms.map (fun m => (m.name, m.attr)) := by
  induction ms generalizing ms' with
  | nil => simp [updMethods] at h
  | cons m rest ih =>
    by_cases hc : strContains m.name n = true
    · simp only [updMethods, hc, if_true, Option.some.injEq] at h
      subst h
      simp [tmUpdate_name_attr]
    · simp only [updMethods, hc] at h
      cases hrec : updMethods r n rest with
      | none => rw [hrec] at h; exact absurd h (by simp)
      | some rest' =>
        rw [hrec] at h
        cases h
        simp [ih rest' hrec]

/-- C9: a successful `TestClass.update` preserves the method collection:
same number of methods, with unchanged names and attributes, in the same
order — only the methods' elements change. -/
theorem C9_update_preserves (tc : TC) (results : List URec) (tc' : TC)
    (h : tc.update results = Except.ok tc') :
    tc'.test_methods.map (fun m => (m.name, m.attr)) =
      tc.test_methods.map (fun m => (m.name, m.attr)) := by
  induction results generalizing tc with
  | nil =>
    simp only [TC.update] at h
    cases h
    rfl
  | cons r rest ih =>
    simp only [TC.update] at h
    split at h
    · exact absurd h (by simp)
    · rename_i n hname
      split at h
      · exact absurd h (by simp)
      · rename_i ms hupd
        have hrest := ih { tc with test_methods := ms } h
        rw [hrest]
        exact updMethods_proj r n tc.test_methods ms hupd

def c9m : TM :=
  TM.make "net" [("name", "a")]
    [Element.make "status" (some "done") none, Element.make "result" (some "fail") none]

def c9tc : TC := TC.make [("name", "net"), ("caps", "['REQ']"), ("order", "0")] [c9m]

def c9recs : List URec :=
  [[("test_name", RecVal.str "net.a"), ("status", RecVal.str "init"), ("result", RecVal.str "NULL")]]

/-- Witness for `C9_update_preserves` on a concrete one-method class. -/
theorem C9_update_preserves_witness :
    c9tc.update c9recs = Except.ok (okTC (c9tc.update c9recs) c9tc) ∧
    (okTC (c9tc.update c9recs) c9tc).test_methods.map (fun m => (m.name, m.attr)) =
      c9tc.test_methods.map (fun m => (m.name, m.attr)) :=
  ⟨rfl, C9_update_preserves c9tc c9recs (okTC (c9tc.update c9recs) c9tc) rfl⟩

/-! ## C10: `update` locates methods by substring containment -/

/-- When no owned method's name contains the record's `test_name`, the
record is rejected. -/
theorem updMethods_eq_none (r : URec) (n : String) (ms : List TM)
    (h : ∀ m ∈ ms, strContains m.name n = false) :
    updMethods r n ms = none := by
  induction ms with
  | nil => rfl
  | cons m rest ih =>
    have hm := h m (List.mem_cons_self m rest)
    simp only [updMethods, hm, Bool.false_eq_true, if_false]
    rw [ih (fun m' hm' => h m' (List.mem_cons_of_mem m hm'))]

/-- The record is applied to the method at the first position whose name
contains the record's `test_name`; everything else is untouched. -/
theorem updMethods_eq_set (r : URec) (n : String) (ms : List TM) (i : Nat)
    (h : i < ms.length)
    (hit : strContains (ms.get ⟨i, h⟩).name n = true)
    (hbefore : ∀ j (hj : j < ms.length), j < i → strContains (ms.get ⟨j, hj⟩).name n = false) :
    updMethods r n ms = some (ms.set i ((ms.get ⟨i, h⟩).update r)) := by
  induction ms generalizing i with
  | nil => exact absurd h (by simp)
  | cons m rest ih =>
    cases i with
    | zero =>
      simp only [List.get] at hit
      simp [updMethods, hit]
    | succ i' =>
      have h0 : strContains m.name n = false := by
        simpa using hbefore 0 (by simp) (Nat.succ_pos i')
      have hb : ∀ j (hj : j < rest.length), j < i' →
          strContains (rest.get ⟨j, hj⟩).name n = false := by
        intro j hj hji
        have hstep := hbefore (j + 1) (by simpa using Nat.succ_lt_succ hj)
          (Nat.succ_lt_succ hji)
        simpa using hstep
      have hres := ih i' (Nat.lt_of_succ_lt_succ h) (by simpa using hit) hb
      simp only [updMethods, h0, Bool.false_eq_true, if_false, hres]
      simp

/-- C10: a record whose `test_name` is contained in some owned method's
full name — in particular a strict substring such as a shared prefix — is
applied to the first such method in stored order; the unknown-method error
is raised exactly when no owned method's name contains the `test_name`. -/
theorem C10_substring_lookup :
    (∀ (tc : TC) (r : URec) (n : String), recTestName r = some n →
      (∀ m ∈ tc.test_methods, strContains m.name n = false) →
      tc.update [r] = Except.error "UnknownMethod") ∧
    (∀ (tc : TC) (r : URec) (n : String) (i : Nat) (h : i < tc.test_methods.length),
      recTestName r = some n →
      strContains (tc.test_methods.get ⟨i, h⟩).name n = true →
      (∀ j (hj : j < tc.test_methods.length), j < i →
        strContains (tc.test_methods.get ⟨j, hj⟩).name n = false) →
      tc.update [r] =
        Except.ok { tc with
          test_methods := tc.test_methods.set i ((tc.test_methods.get ⟨i, h⟩).update r) }) := by
  constructor
  · intro tc r n hname hnone
    simp only [TC.update, hname, updMethods_eq_none r n tc.test_methods hnone]
  · intro tc r n i h hname hit hbefore
    simp only [TC.update, hname, updMethods_eq_set r n tc.test_methods i h hit hbefore]

def c10link2 : TM :=
  TM.make "net" [("name", "link2")]
    [Element.make "status" (some "done") none, Element.make "result" (some "fail") none]

def c10link : TM :=
  TM.make "net" [("name", "link")]
    [Element.make "status" (some "done") none, Element.make "result" (some "fail") none]

def c10tc : TC := TC.make [("name", "net"), ("caps", "['REQ']"), ("order", "0")] [c10link2, c10link]

def c10rec : URec :=
  [("test_name", RecVal.str "net.link"), ("status", RecVal.str "init"), ("result", RecVal.str "NULL")]

/-- Witness for `C10_substring_lookup`: the record names `net.link`
exactly, yet it is applied to `net.link2`, the first stored method whose
name contains "net.link" as a (strict) substring. -/
theorem C10_substring_lookup_witness :
    c10tc.update [c10rec] =
      Except.ok { c10tc with
        test_methods := c10tc.test_methods.set 0 (c10link2.update c10rec) } := by
  have h : (0 : Nat) < c10tc.test_methods.length := by decide
  have hres := C10_substring_lookup.2 c10tc c10rec "net.link" 0 h rfl rfl
    (fun j hj hj0 => absurd hj0 (Nat.not_lt_zero j))
  simpa using hres

/-! ## C3: `is_finished` and the rerun budget -/

/-- With no filter, `get_test_methods` flattens every class's methods. -/
theorem get_test_methods_none (reqCap : String) (d : Device) :
    d.get_test_methods reqCap none = d.test_classes.flatMap (fun tc => tc.test_methods) := by
  have hpred : ∀ tc : TC, (!(eqOptBool (tc.is_required reqCap) none)) = true := by
    intro tc
    rfl
  simp [Device.get_test_methods, hpred]

/-- The five run-level counters are plain `countP`s over all methods of the
run. -/
theorem run_get_status_eq (reqCap : String) (run : Run) :
    run.get_status reqCap =
      { passed := (allMethods run).countP (fun m => m.has_passed)
        failed := (allMethods run).countP (fun m => m.has_failed)
        skipped := (allMethods run).countP (fun m => m.has_skipped)
        waiting := (allMethods run).countP (fun m => m.is_waiting)
        running := (allMethods run).countP (fun m => m.is_running) } := by
  have aux : ∀ (ds : List Device) (acc : StatusCounts),
      ds.foldl
        (fun acc d =>
          let s := d.get_status reqCap
          { passed := acc.passed + s.passed
            failed := acc.failed + s.failed
            skipped := acc.skipped + s.skipped
            waiting := acc.waiting + s.waiting
            running := acc.running + s.running }) acc =
      { passed := acc.passed +
          (ds.flatMap (fun d => d.test_classes.flatMap (fun tc => tc.test_methods))).countP
            (fun m => m.has_passed)
        failed := acc.failed +
          (ds.flatMap (fun d => d.test_classes.flatMap (fun tc => tc.test_methods))).countP
            (fun m => m.has_failed)
        skipped := acc.skipped +
          (ds.flatMap (fun d => d.test_classes.flatMap (fun tc => tc.test_methods))).countP
            (fun m => m.has_skipped)
        waiting := acc.waiting +
          (ds.flatMap (fun d => d.test_classes.flatMap (fun tc => tc.test_methods))).countP
            (fun m => m.is_waiting)
        running := acc.running +
          (ds.flatMap (fun d => d.test_classes.flatMap (fun tc => tc.test_methods))).countP
            (fun m => m.is_running) } := by
    intro ds
    induction ds with
    | nil => intro acc; simp
    | cons d rest ih =>
      intro acc
      rw [List.foldl_cons, ih]
      simp [Device.get_status, get_test_methods_none, List.countP_append, Nat.add_assoc]
  rw [Run.get_status, aux]
  simp [allMethods]

/-- C3 drain helper: the external caller reports every waiting method of a
class as fail/done through the update API. -/
def failWaiting (tc : TC) : TC :=
  okTC
    (tc.update ((tc.group_test_method_by_status).2.1.map
      (fun m => [("test_name", RecVal.str m.name),
                 ("result", RecVal.str "fail"),
                 ("status", RecVal.str "done")])))
    tc

/-- C3 drain helper lifted to the run. -/
def drainRun (r : Run) : Run :=
  { r with devices :=
      r.devices.map (fun d => { d with test_classes := d.test_classes.map failWaiting }) }

/-- One C3 cycle: take the next test, then externally fail whatever became
ready. -/
def c3cycle (x : Run × Document) : Run × Document :=
  match x.1.get_next_test x.2 with
  | Except.ok (_, r, d) => (drainRun r, d)
  | Except.error _ => x

def c3fm : TM :=
  TM.make "net" [("name", "m")]
    [Element.make "status" (some "done") none, Element.make "result" (some "fail") none]

def c3tc : TC := TC.make [("name", "net"), ("caps", "['REQ']"), ("order", "0")] [c3fm]

def c3dev : Device := Device.make [("udid", "1"), ("tag", "NA")] [c3tc]

def c3run0 : Run := { config := [("rerun", "2")], devices := [c3dev] }

def c3doc0 : Document :=
  { global_attr := some [("rerun", "2")]
    devices := [{ attr := [("udid", "1")]
                  classes := [{ attr := [("name", "net")], methods := [] }] }] }

def c3s1 : Run × Document := c3cycle (c3run0, c3doc0)

def c3s2 : Run × Document := c3cycle c3s1

/-- C3: `is_finished()` is false exactly when the budget is truthy (nonzero
or absent-as-unbounded) or some method is waiting/running; and on the
concrete budget-2 run whose only class is finished with a failure,
successive full drains take the budget 2 → 1 → 0, after which
`get_next_test` yields nothing, `is_finished()` is true, and the failed
method is still failed. -/
theorem C3_is_finished :
    (∀ (reqCap : String) (run : Run),
      run.is_finished reqCap = false ↔
        budgetTruthy run.get_rerun_times = true ∨
        ∃ m ∈ allMethods run, m.is_waiting = true ∨ m.is_running = true) ∧
    (c3run0.get_rerun_times = some 2 ∧
     c3s1.1.get_rerun_times = some 1 ∧
     c3s2.1.get_rerun_times = some 0 ∧
     c3s2.1.get_next_test c3s2.2 = Except.ok (none, c3s2.1, c3s2.2) ∧
     c3s2.1.is_finished "REQ" = true ∧
     (allMethods c3s2.1).countP (fun m => m.has_failed) = 1) := by
  constructor
  · intro reqCap run
    by_cases hb : budgetTruthy run.get_rerun_times = true
    · simp [Run.is_finished, hb]
    · have hb' : budgetTruthy run.get_rerun_times = false := by
        cases h : budgetTruthy run.get_rerun_times
        · rfl
        · exact absurd h hb
      rw [Run.is_finished, run_get_status_eq]
      simp only [hb', Bool.false_eq_true, if_false, false_or, beq_eq_false_iff_ne,
        ne_eq]
      constructor
      · intro hne
        have hpos : 0 < (allMethods run).countP (fun m => m.is_waiting) ∨
            0 < (allMethods run).countP (fun m => m.is_running) := by omega
        rcases hpos with h1 | h1
        · obtain ⟨m, hm, hp⟩ := List.countP_pos_iff.mp h1
          exact ⟨m, hm, Or.inl hp⟩
        · obtain ⟨m, hm, hp⟩ := List.countP_pos_iff.mp h1
          exact ⟨m, hm, Or.inr hp⟩
      · rintro ⟨m, hm, hp | hp⟩
        · have h1 : 0 < (allMethods run).countP (fun m => m.is_waiting) :=
            List.countP_pos_iff.mpr ⟨m, hm, hp⟩
          omega
        · have h1 : 0 < (allMethods run).countP (fun m => m.is_running) :=
            List.countP_pos_iff.mpr ⟨m, hm, hp⟩
          omega
  · refine ⟨by decide, by decide, by decide, by decide, by decide, by decide⟩

/-! ## C6: `save` error taxonomy and destructive subtree rewrite -/

def c6tc : TC := TC.make [("name", "net"), ("caps", "['REQ']"), ("order", "0")] []

def c6devNode : DeviceNode :=
  { attr := [("udid", "1")], classes := [{ attr := [("name", "other")], methods := [] }] }

def c6doc : Document := { global_attr := none, devices := [c6devNode] }

/-- C6 counterexample: the matched device owns one class node, but zero of
its class nodes carry this class's name; the claim demands
`DeviceOrClassNotFound`, yet the code reaches the multiplicity check
(`len(node_list) != 1`) and raises the duplicate-class error instead. -/
theorem C6_counterexample :
    (c6devNode.classes.filter (fun c => dictGetD c.attr "name" "" == c6tc.name)).length = 0 ∧
    c6tc.save "1" c6doc = Except.error "AmbiguousClass" := by
  decide

/-- A map relates every element to its image. -/
theorem forall₂_map_self {α : Type} (g : α → α) (R : α → α → Prop)
    (h : ∀ a, R a (g a)) (l : List α) : List.Forall₂ R l (l.map g) := by
  induction l with
  | nil => exact List.Forall₂.nil
  | cons a rest ih => exact List.Forall₂.cons (h a) ih

/-- `updateLast` rewrites the list at exactly the last satisfying
position: the element there satisfies the test, no later element does,
and the result is a pointwise `set` at that position. -/
theorem updateLast_spec {α : Type} (p : α → Bool) (f : α → α) (l : List α)
    (hne : l.filter p ≠ []) :
    ∃ i, ∃ hi : i < l.length,
      p (l.get ⟨i, hi⟩) = true ∧
      (∀ j (hj : j < l.length), i < j → p (l.get ⟨j, hj⟩) = false) ∧
      updateLast p f l = l.set i (f (l.get ⟨i, hi⟩)) := by
  induction l with
  | nil => exact absurd rfl hne
  | cons a rest ih =>
    by_cases hrest : rest.any p = true
    · have hrne : rest.filter p ≠ [] := by
        obtain ⟨x, hx, hpx⟩ := List.any_eq_true.mp hrest
        intro hnil
        exact (List.filter_eq_nil_iff.mp hnil x hx) hpx
      obtain ⟨i, hi, hp1, hp2, hp3⟩ := ih hrne
      refine ⟨i + 1, Nat.succ_lt_succ hi, ?_, ?_, ?_⟩
      · simpa using hp1
      · intro j hj hij
        cases j with
        | zero => exact absurd hij (by omega)
        | succ j' =>
          have hj' : j' < rest.length := Nat.lt_of_succ_lt_succ hj
          simpa using hp2 j' hj' (Nat.lt_of_succ_lt_succ hij)
      · simp only [updateLast, hrest, if_true]
        rw [hp3]
        rfl
    · have hallf : ∀ x ∈ rest, p x = false := by
        intro x hx
        cases hpx : p x
        · rfl
        · exact absurd (List.any_eq_true.mpr ⟨x, hx, hpx⟩) hrest
      have hpa : p a = true := by
        cases hpa : p a
        · exfalso
          apply hne
          simp only [List.filter_cons, hpa, Bool.false_eq_true, if_false]
          exact List.filter_eq_nil_iff.mpr (fun x hx => by simp [hallf x hx])
        · rfl
      have hrest' : rest.any p = false := by
        cases hh : rest.any p
        · rfl
        · exact absurd hh hrest
      refine ⟨0, Nat.succ_pos _, hpa, ?_, ?_⟩
      · intro j hj hij
        cases j with
        | zero => exact absurd hij (by omega)
        | succ j' =>
          have hj' : j' < rest.length := Nat.lt_of_succ_lt_succ hj
          simpa using hallf (rest.get ⟨j', hj'⟩) (rest.get_mem j' hj')
      · simp only [updateLast, hrest', Bool.false_eq_true, if_false, hpa, if_true]
        rfl

/-- C6 amended: with a udid-matching device node in hand (the loop keeps
the classes of the last match; without any match the code dies on an
unbound variable), `save` fails with `DeviceOrClassNotFound` only when
that device carries no class nodes at all; when class nodes exist but the
number matching this class's name differs from one — including zero
matches — it fails with the duplicate-class error (`AmbiguousClass`); and
with exactly one match it succeeds: the global configuration is kept, the
device list changes only at the last udid-matching position, and inside
that device every class node whose name differs from this class is kept
verbatim while the name-matching node keeps its attributes and has its
children replaced by exactly the freshly serialized method nodes. -/
theorem C6_amended (tc : TC) (udid : String) (doc : Document) (dev : DeviceNode)
    (hdev : (doc.devices.filter (fun d => dictGetD d.attr "udid" "" == udid)).getLast? =
      some dev) :
    (dev.classes = [] → tc.save udid doc = Except.error "DeviceOrClassNotFound") ∧
    (dev.classes ≠ [] →
      (dev.classes.filter (fun c => dictGetD c.attr "name" "" == tc.name)).length ≠ 1 →
      tc.save udid doc = Except.error "AmbiguousClass") ∧
    ((dev.classes.filter (fun c => dictGetD c.attr "name" "" == tc.name)).length = 1 →
      ∃ doc', tc.save udid doc = Except.ok doc' ∧
        doc'.global_attr = doc.global_attr ∧
        ∃ i, ∃ hi : i < doc.devices.length,
          dictGetD (doc.devices.get ⟨i, hi⟩).attr "udid" "" = udid ∧
          (∀ j (hj : j < doc.devices.length), i < j →
            dictGetD (doc.devices.get ⟨j, hj⟩).attr "udid" "" ≠ udid) ∧
          doc'.devices =
            doc.devices.set i (replaceClassMethods tc (doc.devices.get ⟨i, hi⟩)) ∧
          (replaceClassMethods tc (doc.devices.get ⟨i, hi⟩)).attr =
            (doc.devices.get ⟨i, hi⟩).attr ∧
          List.Forall₂
            (fun cOld cNew : ClassNode =>
              (dictGetD cOld.attr "name" "" ≠ tc.name → cNew = cOld) ∧
              (dictGetD cOld.attr "name" "" = tc.name →
                cNew = { cOld with methods := tc.test_methods.map TM.serialize }))
            (doc.devices.get ⟨i, hi⟩).classes
            (replaceClassMethods tc (doc.devices.get ⟨i, hi⟩)).classes) := by
  refine ⟨?_, ?_, ?_⟩
  · intro hempty
    simp [TC.save, hdev, hempty]
  · intro hne hlen
    have hnotempty : dev.classes.isEmpty = false := by
      cases h : dev.classes
      · exact absurd h hne
      · rfl
    simp [TC.save, hdev, hnotempty, hlen]
  · intro hlen
    have hne : dev.classes ≠ [] := by
      intro h
      rw [h] at hlen
      simp at hlen
    have hnotempty : dev.classes.isEmpty = false := by
      cases h : dev.classes
      · exact absurd h hne
      · rfl
    have hfne : doc.devices.filter (fun d => dictGetD d.attr "udid" "" == udid) ≠ [] := by
      intro hnil
      rw [hnil] at hdev
      exact absurd hdev (by simp)
    obtain ⟨i, hi, hp1, hp2, hp3⟩ :=
      updateLast_spec (fun d => dictGetD d.attr "udid" "" == udid)
        (replaceClassMethods tc) doc.devices hfne
    refine ⟨{ doc with
        devices := updateLast (fun d => dictGetD d.attr "udid" "" == udid)
          (replaceClassMethods tc) doc.devices },
      by simp [TC.save, hdev, hnotempty, hlen], rfl,
      i, hi, by simpa [beq_iff_eq] using hp1, ?_, hp3, rfl, ?_⟩
    · intro j hj hij
      have := hp2 j hj hij
      simpa [beq_iff_eq] using this
    · simp only [replaceClassMethods]
      apply forall₂_map_self
      intro c
      by_cases hc : dictGetD c.attr "name" "" == tc.name
      · have hceq : dictGetD c.attr "name" "" = tc.name := by
          simpa [beq_iff_eq] using hc
        exact ⟨fun hcon => absurd hceq hcon, fun _ => by simp [hc]⟩
      · have hc' : (dictGetD c.attr "name" "" == tc.name) = false := by
          cases h : (dictGetD c.attr "name" "" == tc.name)
          · rfl
          · exact absurd h hc
        have hcne : dictGetD c.attr "name" "" ≠ tc.name := by
          intro hcon
          rw [hcon] at hc'
          simp at hc'
        exact ⟨fun _ => by simp [hc'], fun hcon => absurd hcon hcne⟩

def c6wTc : TC := TC.make [("name", "net"), ("caps", "['REQ']"), ("order", "0")] []

def c6wDev : DeviceNode := { attr := [("udid", "1")], classes := [] }

def c6wDoc : Document := { global_attr := none, devices := [c6wDev] }

def c6sm : TM :=
  TM.make "net" [("name", "m")]
    [Element.make "status" (some "done") none, Element.make "result" (some "pass") none]

def c6sTc : TC := TC.make [("name", "net"), ("caps", "['REQ']"), ("order", "0")] [c6sm]

def c6sDevNode : DeviceNode :=
  { attr := [("udid", "1")]
    classes := [{ attr := [("name", "other")], methods := [] },
                { attr := [("name", "net")]
                  methods := [{ attr := [("name", "stale")], children := [] }] }] }

def c6sDoc : Document := { global_attr := some [("rerun", "1")], devices := [c6sDevNode] }

/-- Witness for `C6_amended`: a matched device with no class nodes yields
the not-found failure, and on a document with exactly one name-matching
class node the success clause replaces that node's children with the
fresh serialization while keeping its sibling verbatim. -/
theorem C6_amended_witness :
    (c6wDev.classes = [] ∧ c6wTc.save "1" c6wDoc = Except.error "DeviceOrClassNotFound") ∧
    (∃ doc', c6sTc.save "1" c6sDoc = Except.ok doc' ∧
      doc'.global_attr = c6sDoc.global_attr ∧
      ∃ i, ∃ hi : i < c6sDoc.devices.length,
        dictGetD (c6sDoc.devices.get ⟨i, hi⟩).attr "udid" "" = "1" ∧
        (∀ j (hj : j < c6sDoc.devices.length), i < j →
          dictGetD (c6sDoc.devices.get ⟨j, hj⟩).attr "udid" "" ≠ "1") ∧
        doc'.devices =
          c6sDoc.devices.set i (replaceClassMethods c6sTc (c6sDoc.devices.get ⟨i, hi⟩)) ∧
        (replaceClassMethods c6sTc (c6sDoc.devices.get ⟨i, hi⟩)).attr =
          (c6sDoc.devices.get ⟨i, hi⟩).attr ∧
        List.Forall₂
          (fun cOld cNew : ClassNode =>
            (dictGetD cOld.attr "name" "" ≠ c6sTc.name → cNew = cOld) ∧
            (dictGetD cOld.attr "name" "" = c6sTc.name →
              cNew = { cOld with methods := c6sTc.test_methods.map TM.serialize }))
          (c6sDoc.devices.get ⟨i, hi⟩).classes
          (replaceClassMethods c6sTc (c6sDoc.devices.get ⟨i, hi⟩)).classes) :=
  ⟨⟨rfl, (C6_amended c6wTc "1" c6wDoc c6wDev (by decide)).1 rfl⟩,
   (C6_amended c6sTc "1" c6sDoc c6sDevNode (by decide)).2.2 (by decide)⟩

/-! ## C1: the ready-priority pick of `get_next_test` -/

/-- The last element of a list is a member. -/
theorem getLast?_some_mem {α : Type} {l : List α} {a : α} (h : l.getLast? = some a) :
    a ∈ l := by
  obtain ⟨hne, hx⟩ := List.mem_getLast?_eq_getLast (l := l) (x := a) (by rw [h]; rfl)
  rw [hx]
  exact List.getLast_mem hne

/-- A nonempty list has a last element. -/
theorem getLast?_of_ne_nil {α : Type} {l : List α} (h : l ≠ []) :
    ∃ a, l.getLast? = some a := by
  have hs := List.getLast?_isSome.mpr h
  cases hl : l.getLast? with
  | none => rw [hl] at hs; exact absurd hs (by simp)
  | some a => exact ⟨a, rfl⟩

/-- When no device has a running class the resume scan yields nothing. -/
theorem runningPick_eq_none (ds : List Device)
    (h : ∀ d ∈ ds, (d.group_test_classes_by_status).1 = []) :
    runningPick ds = none := by
  induction ds with
  | nil => rfl
  | cons d rest ih =>
    have hd := h d (List.mem_cons_self d rest)
    simp only [runningPick, hd, List.getLast?_nil]
    exact ih (fun d' hd' => h d' (List.mem_cons_of_mem d hd'))

def c1ma : TM :=
  TM.make "c" [("name", "a")]
    [Element.make "status" (some "init") none, Element.make "result" (some "NULL") none]

def c1mb : TM :=
  TM.make "c" [("name", "b")]
    [Element.make "status" (some "init") none, Element.make "result" (some "NULL") none]

def c1tc : TC := TC.make [("name", "c"), ("caps", "['REQ']"), ("order", "0")] [c1ma, c1mb]

def c1dev : Device := Device.make [("udid", "1"), ("tag", "NA")] [c1tc]

def c1run : Run := { config := [], devices := [c1dev] }

def c1doc : Document := { global_attr := none, devices := [] }

/-- C1 counterexample: nothing is running, the only waiting class stores
`c.a` before `c.b`; the lexicographically-first ready method is `c.a`
(head of the sorted ready queue), yet `get_next_test` hands back `c.b` —
the pick is `pop()` on the stored-order waiting list, not the sorted
head. -/
theorem C1_counterexample :
    c1run.get_next_test c1doc = Except.ok (some (c1tc, c1mb), c1run, c1doc) ∧
    c1mb.name = "c.b" ∧
    c1tc.get_methods_to_run.head? = some c1ma ∧
    c1ma.name = "c.a" ∧
    c1ma ≠ c1mb := by
  decide

/-- C1 amended: when no device reports a running class and some class has
a waiting method, `get_next_test` returns the last waiting class in
device-then-class stored collection order together with that class's
*last stored* waiting method (a `pop()` from the stored-order waiting
list, not the lexicographically-first ready method). -/
theorem C1_amended (run : Run) (doc : Document)
    (hnorun : ∀ d ∈ run.devices, (d.group_test_classes_by_status).1 = [])
    (hwait : ∃ d ∈ run.devices, ∃ tc ∈ d.test_classes, ∃ m ∈ tc.test_methods,
      m.is_waiting = true) :
    ∃ tc tm, run.get_next_test doc = Except.ok (some (tc, tm), run, doc) ∧
      (allWaitingClasses run).getLast? = some tc ∧
      (tc.test_methods.filter (fun m => m.is_waiting)).getLast? = some tm := by
  obtain ⟨d, hd, tc0, htc0, m, hm, hmw⟩ := hwait
  have htcwait : tc0 ∈ allWaitingClasses run := by
    apply List.mem_flatMap.mpr
    refine ⟨d, hd, ?_⟩
    apply List.mem_filter.mpr
    refine ⟨htc0, ?_⟩
    have hmem : m ∈ (tc0.group_test_method_by_status).2.1 := by
      simp only [TC.group_test_method_by_status]
      exact List.mem_filter.mpr ⟨hm, hmw⟩
    cases hlist : (tc0.group_test_method_by_status).2.1 with
    | nil => rw [hlist] at hmem; exact absurd hmem (by simp)
    | cons x xs => rfl
  have hne : allWaitingClasses run ≠ [] := by
    intro hnil
    rw [hnil] at htcwait
    exact absurd htcwait (by simp)
  obtain ⟨tcl, htcl⟩ := getLast?_of_ne_nil hne
  have htclmem := getLast?_some_mem htcl
  have htclw : (tcl.group_test_method_by_status).2.1 ≠ [] := by
    obtain ⟨d', _, hfil⟩ := List.mem_flatMap.mp htclmem
    have hpred := (List.mem_filter.mp hfil).2
    intro hnil
    rw [hnil] at hpred
    simp at hpred
  obtain ⟨tml, html⟩ := getLast?_of_ne_nil htclw
  refine ⟨tcl, tml, ?_, htcl, ?_⟩
  · rw [Run.get_next_test, runningPick_eq_none run.devices hnorun, htcl]
    simp only [html]
  · simpa only [TC.group_test_method_by_status] using html

/-- Witness for `C1_amended` on the concrete two-method run. -/
theorem C1_amended_witness :
    ∃ tc tm, c1run.get_next_test c1doc = Except.ok (some (tc, tm), c1run, c1doc) ∧
      (allWaitingClasses c1run).getLast? = some tc ∧
      (tc.test_methods.filter (fun m => m.is_waiting)).getLast? = some tm :=
  C1_amended c1run c1doc (by decide)
    ⟨c1dev, by decide, c1tc, by decide, c1ma, by decide, by decide⟩

/-! ## C2: the rerun sweep -/

/-- Every character list is a leading segment of itself. -/
theorem subAt_self (l : List Char) : subAt l l = true := by
  induction l with
  | nil => rfl
  | cons c rest ih => simp [subAt, ih]

/-- Every string contains itself. -/
theorem strContains_self (s : String) : strContains s s = true := by
  cases h : s.data with
  | nil => simp [strContains, h, containsSub, subAt]
  | cons c rest =>
    simp [strContains, h, containsSub, subAt_self]

/-- Lookup after an in-place dict update. -/
theorem dictGet_set (d : Dict) (k v : String) (k' : String) :
    dictGet (dictSet d k v) k' = if k' = k then some v else dictGet d k' := by
  induction d with
  | nil =>
    by_cases h : k' = k
    · simp [dictSet, dictGet, h]
    · simp [dictSet, dictGet, h, Ne.symm h]
  | cons kv rest ih =>
    by_cases hk : kv.1 = k
    · by_cases h : k' = k
      · simp [dictSet, dictGet, hk, h]
      · simp [dictSet, dictGet, hk, h, Ne.symm h]
    · by_cases h : kv.1 = k'
      · have hne : ¬ k' = k := fun hkk => hk (hkk ▸ h)
        simp [dictSet, dictGet, hk, h, hne]
      · simp [dictSet, dictGet, hk, h, ih]

/-- After setting a scalar nonempty value for key `k`, looking `k` up in
the element list yields an element holding exactly that value. -/
theorem findElem_updElems_str (es : List Element) (k s : String) (hs : s.isEmpty = false) :
    ∃ e, findElem (updElems k (RecVal.str s) es) k = some e ∧ e.val = some s := by
  induction es with
  | nil =>
    refine ⟨Element.make k (some s) none, ?_, ?_⟩
    · simp [updElems, findElem, Element.make]
    · simp [Element.make, hs]
  | cons e rest ih =>
    by_cases he : e.name == k
    · refine ⟨{ e with val := some s }, ?_, rfl⟩
      simp [updElems, he, findElem]
    · have he' : (e.name == k) = false := by
        cases h : (e.name == k)
        · rfl
        · exact absurd h he
      obtain ⟨e', he1, he2⟩ := ih
      exact ⟨e', by simp [updElems, he', findElem, he1], he2⟩

/-- Updating key `k` does not disturb lookups of a different key. -/
theorem findElem_updElems_other (es : List Element) (k : String) (v : RecVal)
    (k' : String) (h : k' ≠ k) :
    findElem (updElems k v es) k' = findElem es k' := by
  induction es with
  | nil =>
    cases v with
    | str s => simp [updElems, findElem, Element.make, Ne.symm h]
    | dict d => simp [updElems, findElem, Element.make, Ne.symm h]
  | cons e rest ih =>
    by_cases he : e.name == k
    · have hek : e.name = k := by simpa [beq_iff_eq] using he
      have hek' : (e.name == k') = false := by
        have : e.name ≠ k' := fun hh => h (hh.symm.trans hek)
        simp [this]
      cases v with
      | str s => simp [updElems, he, findElem, hek']
      | dict d => simp [updElems, he, findElem, hek']
    · have he' : (e.name == k) = false := by
        cases hh : (e.name == k)
        · rfl
        · exact absurd hh he
      by_cases hk' : e.name == k'
      · simp [updElems, he', findElem, hk']
      · have hk'' : (e.name == k') = false := by
          cases hh : (e.name == k')
          · rfl
          · exact absurd hh hk'
        simp [updElems, he', findElem, hk'', ih]

/-- `matchKey` right after setting the same key to a scalar nonempty
value compares the two texts. -/
theorem matchKey_update_elem_str (m : TM) (k s t : String) (hs : s.isEmpty = false) :
    (m.update_elem k (RecVal.str s)).matchKey k t = (s == t) := by
  obtain ⟨e, he1, he2⟩ := findElem_updElems_str m.elems k s hs
  simp [TM.matchKey, TM.update_elem, he1, he2]

/-- `matchKey` on a different key is unchanged by `update_elem`. -/
theorem matchKey_update_elem_other (m : TM) (k : String) (v : RecVal) (k' t : String)
    (h : k' ≠ k) :
    (m.update_elem k v).matchKey k' t = m.matchKey k' t := by
  simp [TM.matchKey, TM.update_elem, findElem_updElems_other m.elems k v k' h]

/-- `getKey` right after setting the same key to a scalar nonempty
value. -/
theorem getKey_update_elem_str (m : TM) (k s : String) (hs : s.isEmpty = false) :
    (m.update_elem k (RecVal.str s)).getKey k = some s := by
  obtain ⟨e, he1, he2⟩ := findElem_updElems_str m.elems k s hs
  simp [TM.getKey, TM.update_elem, he1, he2]

/-- The record the rerun sweep applies to one failed method. -/
def resetRec (m : TM) : URec :=
  [("test_name", RecVal.str m.name),
   ("status", RecVal.str "init"),
   ("result", RecVal.str "NULL")]

/-- A reset method: its own record applied to it. -/
def applyReset (m : TM) : TM := m.update (resetRec m)

/-- A reset method is waiting again. -/
theorem applyReset_is_waiting (m : TM) : (applyReset m).is_waiting = true := by
  show (((m.update_elem "test_name" (RecVal.str m.name)).update_elem
    "status" (RecVal.str "init")).update_elem
    "result" (RecVal.str "NULL")).matchKey "status" "init" = true
  rw [matchKey_update_elem_other _ _ _ _ _ (by decide)]
  rw [matchKey_update_elem_str _ _ _ _ (by decide)]
  decide

/-- A reset method no longer reads as failed. -/
theorem applyReset_not_failed (m : TM) : (applyReset m).has_failed = false := by
  show (((m.update_elem "test_name" (RecVal.str m.name)).update_elem
    "status" (RecVal.str "init")).update_elem
    "result" (RecVal.str "NULL")).matchKey "result" "fail" = false
  rw [matchKey_update_elem_str _ _ _ _ (by decide)]
  decide

/-- A reset method's result annotation reads `NULL`. -/
theorem applyReset_result (m : TM) : (applyReset m).getKey "result" = some "NULL" := by
  show (((m.update_elem "test_name" (RecVal.str m.name)).update_elem
    "status" (RecVal.str "init")).update_elem
    "result" (RecVal.str "NULL")).getKey "result" = some "NULL"
  rw [getKey_update_elem_str _ _ _ (by decide)]

/-- Resetting does not rename. -/
theorem applyReset_name (m : TM) : (applyReset m).name = m.name :=
  (tmUpdate_name_attr (resetRec m) m).1

/-- The in-place effect of the rerun sweep on one method: failed methods
are reset, others are untouched. -/
def resetIfFailed (m : TM) : TM := if m.has_failed then applyReset m else m

/-- The method-list effect of `TestClass.update` applied to a batch of
records, one at a time. -/
def stepAll : List URec → List TM → Option (List TM)
  | [], ms => some ms
  | r :: rs, ms =>
    match recTestName r with
    | none => none
    | some n =>
      match updMethods r n ms with
      | none => none
      | some ms' => stepAll rs ms'

/-- A successful record batch determines the class update. -/
theorem tcUpdate_of_stepAll (tc : TC) (rs : List URec) (ms : List TM)
    (h : stepAll rs tc.test_methods = some ms) :
    tc.update rs = Except.ok { tc with test_methods := ms } := by
  induction rs generalizing tc with
  | nil =>
    simp only [stepAll, Option.some.injEq] at h
    subst h
    rfl
  | cons r rs ih =>
    simp only [stepAll] at h
    split at h
    · exact absurd h (by simp)
    · rename_i n hn
      split at h
      · exact absurd h (by simp)
      · rename_i ms₁ hupd
        simp only [TC.update, hn, hupd]
        exact ih { tc with test_methods := ms₁ } h

/-- Records that can never match the head method pass over it. -/
theorem stepAll_cons_skip (rs : List URec) (m0 : TM) (ms : List TM)
    (hall : ∀ r ∈ rs, ∃ n, recTestName r = some n ∧ strContains m0.name n = false) :
    stepAll rs (m0 :: ms) = (stepAll rs ms).map (fun l => m0 :: l) := by
  induction rs generalizing ms with
  | nil => rfl
  | cons r rs ih =>
    obtain ⟨n, hn, hnc⟩ := hall r (List.mem_cons_self r rs)
    have hall' : ∀ r' ∈ rs, ∃ n', recTestName r' = some n' ∧
        strContains m0.name n' = false :=
      fun r' hr' => hall r' (List.mem_cons_of_mem r hr')
    simp only [stepAll, hn, updMethods, hnc, Bool.false_eq_true, if_false]
    cases hupd : updMethods r n ms with
    | none => simp
    | some ms' => simpa using ih ms' hall'

/-- Under pairwise non-containment of method names, the rerun batch resets
exactly the failed methods, each in place. -/
theorem stepAll_reset (ms : List TM)
    (h : List.Pairwise (fun a b => strContains a.name b.name = false) ms) :
    stepAll ((ms.filter (fun m => m.has_failed)).map resetRec) ms =
      some (ms.map resetIfFailed) := by
  induction ms with
  | nil => rfl
  | cons m rest ih =>
    have hhead : ∀ b ∈ rest, strContains m.name b.name = false :=
      (List.pairwise_cons.mp h).1
    have hrest := (List.pairwise_cons.mp h).2
    have hall : ∀ r ∈ (rest.filter (fun m => m.has_failed)).map resetRec,
        ∃ n, recTestName r = some n ∧ strContains m.name n = false := by
      intro r hr
      obtain ⟨b, hb, hbr⟩ := List.mem_map.mp hr
      refine ⟨b.name, by rw [← hbr]; rfl, hhead b (List.mem_of_mem_filter hb)⟩
    by_cases hf : m.has_failed = true
    · have hself : strContains m.name m.name = true := strContains_self m.name
      have hrn : recTestName (resetRec m) = some m.name := rfl
      simp only [List.filter_cons, hf, if_true, List.map_cons, stepAll, hrn,
        updMethods, hself, if_true]
      have hall' : ∀ r ∈ (rest.filter (fun m => m.has_failed)).map resetRec,
          ∃ n, recTestName r = some n ∧
            strContains (m.update (resetRec m)).name n = false := by
        intro r hr
        obtain ⟨n, hn1, hn2⟩ := hall r hr
        refine ⟨n, hn1, ?_⟩
        have : (m.update (resetRec m)).name = m.name := applyReset_name m
        rw [this]
        exact hn2
      rw [stepAll_cons_skip _ _ _ hall', ih hrest]
      simp [resetIfFailed, hf, applyReset]
    · have hf' : m.has_failed = false := by
        cases hh : m.has_failed
        · rfl
        · exact absurd hh hf
      simp only [List.filter_cons, hf', Bool.false_eq_true, if_false, List.map_cons]
      rw [stepAll_cons_skip _ _ _ hall, ih hrest]
      simp [resetIfFailed, hf']

/-- Under pairwise non-containment, `rerunReset` maps `resetIfFailed` over
the methods and leaves everything else in the class alone. -/
theorem rerunReset_eq (tc : TC)
    (h : List.Pairwise (fun a b => strContains a.name b.name = false) tc.test_methods) :
    tc.rerunReset = { tc with test_methods := tc.test_methods.map resetIfFailed } := by
  have hrecs : tc.resetRecords =
      (tc.test_methods.filter (fun m => m.has_failed)).map resetRec := rfl
  have hstep : stepAll tc.resetRecords tc.test_methods =
      some (tc.test_methods.map resetIfFailed) := by
    rw [hrecs]
    exact stepAll_reset tc.test_methods h
  have hupd := tcUpdate_of_stepAll tc tc.resetRecords
    (tc.test_methods.map resetIfFailed) hstep
  simp [TC.rerunReset, hupd]

/-- Membership version of `forall₂_map_self`. -/
theorem forall₂_map_self_of_mem {α : Type} (g : α → α) (R : α → α → Prop)
    (l : List α) (h : ∀ a ∈ l, R a (g a)) : List.Forall₂ R l (l.map g) := by
  induction l with
  | nil => exact List.Forall₂.nil
  | cons a rest ih =>
    exact List.Forall₂.cons (h a (List.mem_cons_self a rest))
      (ih (fun x hx => h x (List.mem_cons_of_mem a hx)))

/-- A flat map over parts that are all empty is empty. -/
theorem flatMap_eq_nil_of_parts {α β : Type} (f : α → List β) (l : List α)
    (h : ∀ a ∈ l, f a = []) : l.flatMap f = [] := by
  induction l with
  | nil => rfl
  | cons a rest ih =>
    rw [List.flatMap_cons, h a (List.mem_cons_self a rest),
      ih (fun x hx => h x (List.mem_cons_of_mem a hx))]
    rfl

/-- After the sweep, the waiting methods of a previously all-done class
are exactly its failed methods, reset, in stored order. -/
theorem filter_waiting_reset (ms : List TM) (hw : ∀ m ∈ ms, m.is_waiting = false) :
    (ms.map resetIfFailed).filter (fun m => m.is_waiting) =
      (ms.filter (fun m => m.has_failed)).map applyReset := by
  induction ms with
  | nil => rfl
  | cons m rest ih =>
    have hm := hw m (List.mem_cons_self m rest)
    have hrest := ih (fun x hx => hw x (List.mem_cons_of_mem m hx))
    by_cases hf : m.has_failed = true
    · simp only [List.map_cons, resetIfFailed, hf, if_true, List.filter_cons,
        applyReset_is_waiting, hrest]
    · have hf' : m.has_failed = false := by
        cases hh : m.has_failed
        · rfl
        · exact absurd hh hf
      simp only [List.map_cons, resetIfFailed, hf', Bool.false_eq_true, if_false,
        List.filter_cons, hm, hrest]

/-- `isEmpty` characterization. -/
theorem isEmpty_true_iff {α : Type} (l : List α) : l.isEmpty = true ↔ l = [] := by
  cases l <;> simp

def c2ma : TM :=
  TM.make "c" [("name", "a")]
    [Element.make "status" (some "done") none, Element.make "result" (some "fail") none]

def c2mb : TM :=
  TM.make "c" [("name", "b")]
    [Element.make "status" (some "done") none, Element.make "result" (some "fail") none]

def c2tc : TC := TC.make [("name", "c"), ("caps", "['REQ']"), ("order", "0")] [c2ma, c2mb]

def c2run : Run :=
  { config := [("rerun", "1")]
    devices := [Device.make [("udid", "1"), ("tag", "NA")] [c2tc]] }

def c2doc : Document :=
  { global_attr := some [("rerun", "1")]
    devices := [{ attr := [("udid", "1")]
                  classes := [{ attr := [("name", "c")], methods := [] }] }] }

def c2pick : Option (TC × TM) :=
  match c2run.get_next_test c2doc with
  | Except.ok (p, _, _) => p
  | Except.error _ => none

/-- C2 counterexample: both methods of the only class failed (stored order
`c.a`, `c.b`) and the budget is 1; the rerun sweep hands back the method
reset from `c.b` — the *last* stored failed method — while the
lexicographically-first now-ready method of the returned class is the one
named `c.a` (head of its sorted ready queue). -/
theorem C2_counterexample :
    c2pick.map (fun p => p.2.name) = some "c.b" ∧
    c2pick.map (fun p => p.1.get_methods_to_run.head?.map (fun m => m.name)) =
      some (some "c.a") := by
  decide

/-- C2 amended: when nothing is running or waiting, the budget is truthy
and some class has failed methods, the rerun sweep (i) decrements the
budget only when it is a positive finite integer — an absent/unbounded
budget is never decremented — persisting the new value into the global
configuration and the document, (ii) provided no method name of a class
is contained in a different method's name of the same class, resets every
failed method of every failed class to waiting with a `NULL` result while
leaving every other method untouched, persisting each failed class, and
(iii) returns the last failed class in collected order together with the
reset of its *last stored* failed method. -/
theorem C2_amended (run : Run) (doc doc₂ : Document)
    (hnorun : ∀ d ∈ run.devices, (d.group_test_classes_by_status).1 = [])
    (hnowait : ∀ d ∈ run.devices, (d.group_test_classes_by_status).2.1 = [])
    (htruthy : budgetTruthy run.get_rerun_times = true)
    (hfail : allFailedClasses run ≠ [])
    (hfree : ∀ d ∈ run.devices, ∀ tc ∈ d.test_classes,
      List.Pairwise (fun a b => strContains a.name b.name = false) tc.test_methods)
    (hsave : saveAll ((allFailedClasses run).map (fun p => (p.1, p.2.rerunReset)))
      (budgetStep run doc).2 = Except.ok doc₂) :
    ∃ lastp : String × TC, (allFailedClasses run).getLast? = some lastp ∧
    ∃ tm : TM,
      run.get_next_test doc =
        Except.ok (some (lastp.2.rerunReset, tm), rerunResetRun (budgetStep run doc).1, doc₂) ∧
      (lastp.2.test_methods.filter (fun m => m.has_failed)).getLast?.map applyReset = some tm ∧
      (∀ n, run.get_rerun_times = some n →
        dictGet (rerunResetRun (budgetStep run doc).1).config "rerun" =
          some (natToStr (n - 1))) ∧
      (run.get_rerun_times = none →
        (rerunResetRun (budgetStep run doc).1).config = run.config) ∧
      (∀ n g, run.get_rerun_times = some n → doc.global_attr = some g →
        dictHas g "rerun" = true →
        (budgetStep run doc).2.global_attr =
          some (dictSet g "rerun" (natToStr (n - 1)))) ∧
      (run.get_rerun_times = none → (budgetStep run doc).2 = doc) ∧
      List.Forall₂ (fun dOld dNew : Device =>
          dNew.config = dOld.config ∧
          List.Forall₂ (fun tOld tNew : TC =>
              tNew.config = tOld.config ∧
              List.Forall₂ (fun mOld mNew : TM =>
                  mNew.name = mOld.name ∧
                  (mOld.has_failed = true →
                    mNew.is_waiting = true ∧ mNew.has_failed = false ∧
                    mNew.getKey "result" = some "NULL") ∧
                  (mOld.has_failed = false → mNew = mOld))
                tOld.test_methods tNew.test_methods)
            dOld.test_classes dNew.test_classes)
        run.devices (rerunResetRun (budgetStep run doc).1).devices := by
  obtain ⟨lastp, hlast⟩ := getLast?_of_ne_nil hfail
  obtain ⟨d0, hd0, hlp⟩ := List.mem_flatMap.mp (getLast?_some_mem hlast)
  obtain ⟨tc0, htc0f, htc0e⟩ := List.mem_map.mp hlp
  have hlp2 : lastp.2 = tc0 := by rw [← htc0e]
  have htc0mem : tc0 ∈ d0.test_classes := List.mem_of_mem_filter htc0f
  have htc0failed : tc0.test_methods.filter (fun m => m.has_failed) ≠ [] := by
    have hpred := (List.mem_filter.mp htc0f).2
    intro hnil
    have : (tc0.group_test_method_by_status).2.2 = [] := hnil
    rw [this] at hpred
    simp at hpred
  have htc0wait : ∀ m ∈ tc0.test_methods, m.is_waiting = false := by
    have hd0w := hnowait d0 hd0
    have hnp := List.filter_eq_nil_iff.mp hd0w tc0 htc0mem
    have hemp : (tc0.group_test_method_by_status).2.1 = [] := by
      cases hh : (tc0.group_test_method_by_status).2.1 with
      | nil => rfl
      | cons x xs =>
        exfalso
        apply hnp
        rw [hh]
        rfl
    intro m hm
    have hnm := List.filter_eq_nil_iff.mp hemp m hm
    cases hh : m.is_waiting
    · rfl
    · exact absurd hh hnm
  have htc0free := hfree d0 hd0 tc0 htc0mem
  have hreset := rerunReset_eq tc0 htc0free
  have hwfilter : ((tc0.rerunReset).group_test_method_by_status).2.1 =
      (tc0.test_methods.filter (fun m => m.has_failed)).map applyReset := by
    rw [hreset]
    exact filter_waiting_reset tc0.test_methods htc0wait
  obtain ⟨lastm, hlastm⟩ := getLast?_of_ne_nil htc0failed
  have htm : ((tc0.rerunReset).group_test_method_by_status).2.1.getLast? =
      some (applyReset lastm) := by
    rw [hwfilter, List.getLast?_map, hlastm]
    rfl
  have hwnil : allWaitingClasses run = [] :=
    flatMap_eq_nil_of_parts _ _ hnowait
  have hfempty : (allFailedClasses run).isEmpty = false := by
    cases h' : allFailedClasses run with
    | nil => exact absurd h' hfail
    | cons x xs => rfl
  refine ⟨lastp, hlast, applyReset lastm, ?_, ?_, ?_, ?_, ?_, ?_, ?_⟩
  · rw [Run.get_next_test, runningPick_eq_none run.devices hnorun, hwnil]
    simp only [List.getLast?_nil, htruthy, hfempty, Bool.not_false, Bool.and_self,
      if_true]
    rw [hsave]
    simp only [hlast, hlp2, htm]
  · rw [hlp2, hlastm]
    rfl
  · intro n hn
    have hpos : 0 < n := by
      rw [hn] at htruthy
      simp only [budgetTruthy, bne_iff_ne, ne_eq] at htruthy
      omega
    obtain ⟨s, hs⟩ : ∃ s, dictGet run.config "rerun" = some s := by
      rw [Run.get_rerun_times] at hn
      cases hg : dictGet run.config "rerun" with
      | none => rw [hg] at hn; exact absurd hn (by simp)
      | some s => exact ⟨s, rfl⟩
    have hhas : dictHas run.config "rerun" = true := by simp [dictHas, hs]
    have hconfig : (budgetStep run doc).1.config =
        dictSet run.config "rerun" (natToStr (n - 1)) := by
      rw [budgetStep, hn]
      simp only [hpos, if_true]
      rw [Run.update_rerun_times]
      simp [hhas]
    have hrr : (rerunResetRun (budgetStep run doc).1).config =
        (budgetStep run doc).1.config := rfl
    rw [hrr, hconfig, dictGet_set]
    simp
  · intro hn
    have hrr : (rerunResetRun (budgetStep run doc).1).config =
        (budgetStep run doc).1.config := rfl
    rw [hrr, budgetStep, hn]
  · intro n g hn hg hhas
    have hpos : 0 < n := by
      rw [hn] at htruthy
      simp only [budgetTruthy, bne_iff_ne, ne_eq] at htruthy
      omega
    rw [budgetStep, hn]
    simp only [hpos, if_true]
    rw [Run.update_rerun_times]
    simp [hg, hhas]
  · intro hn
    rw [budgetStep, hn]
  · have hbd : (budgetStep run doc).1.devices = run.devices := by
      rw [budgetStep]
      cases hn : run.get_rerun_times with
      | none => rfl
      | some n =>
        by_cases hp : 0 < n
        · simp only [hp, if_true]
          rw [Run.update_rerun_times]
          by_cases hh : dictHas run.config "rerun" = true
          · simp [hh]
          · have hh' : dictHas run.config "rerun" = false := by
              cases hx : dictHas run.config "rerun"
              · rfl
              · exact absurd hx hh
            simp [hh']
        · simp [hp]
    have hdev : (rerunResetRun (budgetStep run doc).1).devices =
        run.devices.map (fun d =>
          { d with test_classes := d.test_classes.map (fun tc =>
              if (tc.group_test_method_by_status).2.2.isEmpty then tc
              else tc.rerunReset) }) := by
      rw [rerunResetRun, hbd]
    rw [hdev]
    apply forall₂_map_self_of_mem
    intro d hd
    refine ⟨rfl, ?_⟩
    apply forall₂_map_self_of_mem
    intro tc htc
    by_cases hemp : (tc.group_test_method_by_status).2.2.isEmpty = true
    · have hnofail : ∀ m ∈ tc.test_methods, m.has_failed = false := by
        have hfe : tc.test_methods.filter (fun m => m.has_failed) = [] :=
          (isEmpty_true_iff _).mp hemp
        intro m hm
        have hnm := List.filter_eq_nil_iff.mp hfe m hm
        cases hh : m.has_failed
        · rfl
        · exact absurd hh hnm
      refine ⟨by simp [hemp], ?_⟩
      simp only [hemp, if_true]
      apply List.forall₂_same.mpr
      intro m hm
      exact ⟨rfl,
        fun hfl => absurd hfl (by simp [hnofail m hm]),
        fun _ => rfl⟩
    · have hemp' : (tc.group_test_method_by_status).2.2.isEmpty = false := by
        cases hh : (tc.group_test_method_by_status).2.2.isEmpty
        · rfl
        · exact absurd hh hemp
      have hfreetc := hfree d hd tc htc
      have hr := rerunReset_eq tc hfreetc
      refine ⟨by simp [hemp', hr], ?_⟩
      simp only [hemp', Bool.false_eq_true, if_false, hr]
      apply forall₂_map_self_of_mem
      intro m hm
      by_cases hf : m.has_failed = true
      · refine ⟨by simp [resetIfFailed, hf, applyReset_name], ?_, ?_⟩
        · intro _
          exact ⟨by simp [resetIfFailed, hf, applyReset_is_waiting],
                 by simp [resetIfFailed, hf, applyReset_not_failed],
                 by simp [resetIfFailed, hf, applyReset_result]⟩
        · intro hctr
          rw [hf] at hctr
          exact absurd hctr (by simp)
      · have hf' : m.has_failed = false := by
          cases hh : m.has_failed
          · rfl
          · exact absurd hh hf
        exact ⟨by simp [resetIfFailed, hf'],
               fun hctr => absurd hctr (by simp [hf']),
               fun _ => by simp [resetIfFailed, hf']⟩

def c2wm : TM :=
  TM.make "c" [("name", "m")]
    [Element.make "status" (some "done") none, Element.make "result" (some "fail") none]

def c2wTc : TC := TC.make [("name", "c"), ("caps", "['REQ']"), ("order", "0")] [c2wm]

def c2wRun : Run :=
  { config := [("rerun", "2")]
    devices := [Device.make [("udid", "1"), ("tag", "NA")] [c2wTc]] }

def c2wDoc : Document :=
  { global_attr := some [("rerun", "2")]
    devices := [{ attr := [("udid", "1")]
                  classes := [{ attr := [("name", "c")], methods := [] }] }] }

def c2wDoc2 : Document :=
  match saveAll ((allFailedClasses c2wRun).map (fun p => (p.1, p.2.rerunReset)))
      (budgetStep c2wRun c2wDoc).2 with
  | Except.ok d => d
  | Except.error _ => c2wDoc

/-- Witness for `C2_amended` on a concrete budget-2 run whose single class
holds one failed method. -/
theorem C2_amended_witness :
    ∃ lastp : String × TC, (allFailedClasses c2wRun).getLast? = some lastp ∧
    ∃ tm : TM,
      c2wRun.get_next_test c2wDoc =
        Except.ok (some (lastp.2.rerunReset, tm),
          rerunResetRun (budgetStep c2wRun c2wDoc).1, c2wDoc2) ∧
      (lastp.2.test_methods.filter (fun m => m.has_failed)).getLast?.map applyReset =
        some tm ∧
      (∀ n, c2wRun.get_rerun_times = some n →
        dictGet (rerunResetRun (budgetStep c2wRun c2wDoc).1).config "rerun" =
          some (natToStr (n - 1))) ∧
      (c2wRun.get_rerun_times = none →
        (rerunResetRun (budgetStep c2wRun c2wDoc).1).config = c2wRun.config) ∧
      (∀ n g, c2wRun.get_rerun_times = some n → c2wDoc.global_attr = some g →
        dictHas g "rerun" = true →
        (budgetStep c2wRun c2wDoc).2.global_attr =
          some (dictSet g "rerun" (natToStr (n - 1)))) ∧
      (c2wRun.get_rerun_times = none → (budgetStep c2wRun c2wDoc).2 = c2wDoc) ∧
      List.Forall₂ (fun dOld dNew : Device =>
          dNew.config = dOld.config ∧
          List.Forall₂ (fun tOld tNew : TC =>
              tNew.config = tOld.config ∧
              List.Forall₂ (fun mOld mNew : TM =>
                  mNew.name = mOld.name ∧
                  (mOld.has_failed = true →
                    mNew.is_waiting = true ∧ mNew.has_failed = false ∧
                    mNew.getKey "result" = some "NULL") ∧
                  (mOld.has_failed = false → mNew = mOld))
                tOld.test_methods tNew.test_methods)
            dOld.test_classes dNew.test_classes)
        c2wRun.devices (rerunResetRun (budgetStep c2wRun c2wDoc).1).devices :=
  C2_amended c2wRun c2wDoc c2wDoc2 (by decide) (by decide) (by decide) (by decide)
    (by decide) (by decide)
